import Mathlib

/-! ## Definitions -/

/-- Leap-year test of the proleptic Gregorian calendar, as in Python's
`calendar.isleap`: divisible by 4 and (not by 100 or by 400).  Lean's `%` on
`Int` is Euclidean and agrees with Python `%` for the positive moduli used. -/
def isLeap (y : Int) : Bool :=
  y % 4 == 0 && (y % 100 != 0 || y % 400 == 0)

/-- Number of days in year `y`. -/
def yearLen (y : Int) : Nat := if isLeap y then 366 else 365

/-- Number of days of month `m` (1..12) in year `y`; 0 outside 1..12. -/
def monthLen (y : Int) (m : Nat) : Nat :=
  match m with
  | 1 => 31
  | 2 => if isLeap y then 29 else 28
  | 3 => 31
  | 4 => 30
  | 5 => 31
  | 6 => 30
  | 7 => 31
  | 8 => 31
  | 9 => 30
  | 10 => 31
  | 11 => 30
  | 12 => 31
  | _ => 0

/-- Days in year `y` strictly before month `m` (CPython `_days_before_month`). -/
def daysBeforeMonth (y : Int) : Nat → Nat
  | 0 => 0
  | m + 1 => daysBeforeMonth y m + monthLen y m

/-- Days before January 1 of year `y` (CPython `_days_before_year`):
`(y-1)*365 + (y-1)//4 - (y-1)//100 + (y-1)//400` with Python floor division. -/
def daysBeforeYear (y : Int) : Int :=
  365 * (y - 1) + Int.fdiv (y - 1) 4 - Int.fdiv (y - 1) 100 + Int.fdiv (y - 1) 400

/-- Python `date(y, m, d).toordinal()` (CPython `_ymd2ord`). -/
def toOrdinal (y : Int) (m d : Nat) : Int :=
  daysBeforeYear y + daysBeforeMonth y m + d

/-- Year search of `date.fromordinal`: starting at year `y` with `doy` days
remaining, step over whole years until fewer than one year of days remains.
Fuel bounds the walk; 400 steps always suffice within one 400-year era. -/
def findY : Nat → Int → Nat → Int × Nat
  | 0, y, doy => (y, doy)
  | fuel + 1, y, doy =>
    if doy < yearLen y then (y, doy) else findY fuel (y + 1) (doy - yearLen y)

/-- Month search of `date.fromordinal`: starting at month `m` with `doy` days
remaining in the year, step over whole months. -/
def findM (y : Int) : Nat → Nat → Nat → Nat × Nat
  | 0, m, doy => (m, doy)
  | fuel + 1, m, doy =>
    if doy < monthLen y m then (m, doy) else findM y fuel (m + 1) (doy - monthLen y m)

/-- Python `date.fromordinal` (CPython `_ord2ymd`): split off complete
400-year eras (146097 days each), then locate year, month and day. -/
def fromOrdinal (n : Int) : Int × Nat × Nat :=
  let era := Int.fdiv (n - 1) 146097
  let doe := (n - 1 - era * 146097).toNat
  let yd := findY 400 (era * 400 + 1) doe
  let md := findM yd.1 12 1 yd.2
  (yd.1, md.1, md.2 + 1)

/-- Smallest Python date ordinal, `date(1, 1, 1).toordinal()`. -/
def minOrdinal : Int := 1

/-- Largest Python date ordinal, `date(9999, 12, 31).toordinal()`. -/
def maxOrdinal : Int := 3652059

/-- Two-digit zero-padded decimal rendering (strftime `%m` / `%d`). -/
def pad2 (n : Nat) : String :=
  ⟨[Nat.digitChar (n / 10), Nat.digitChar (n % 10)]⟩

/-- Four-digit zero-padded decimal rendering (strftime `%Y`). -/
def pad4 (n : Nat) : String :=
  ⟨[Nat.digitChar (n / 1000), Nat.digitChar (n / 100 % 10),
    Nat.digitChar (n / 10 % 10), Nat.digitChar (n % 10)]⟩

/-- `d.strftime('%Y.%m.%d')` for the date with ordinal `n`. -/
def strftime_date (n : Int) : String :=
  let ymd := fromOrdinal n
  pad4 ymd.1.toNat ++ "." ++ pad2 ymd.2.1 ++ "." ++ pad2 ymd.2.2

/-- A Python `datetime` value: the ordinal of its date plus a second-of-day.
Only the date takes part in bucket computation; `datetime.fromtimestamp` is
modelled as the identity on instants (timestamps are stored as instants). -/
structure DateTime where
  date : Int
  secs : Nat
deriving DecidableEq, Repr

/-- A filesystem path: an absolute flag plus its components, the normalized
view on which `os.path.join`, `basename` and `commonpath` operate. -/
structure PyPath where
  absolute : Bool
  parts : List String
deriving DecidableEq, Repr

/-- The Python exceptions the embedded code can raise. `oserror` stands for
the `OSError` family (`FileNotFoundError`, `PermissionError`). -/
inductive PyErr where
  | oserror
  | valueError
deriving DecidableEq, Repr

/-- `os.path.join(root, name)` for a single final component. -/
def joinName (root : PyPath) (name : String) : PyPath :=
  ⟨root.absolute, root.parts ++ [name]⟩

/-- `os.path.basename`. -/
def basename (p : PyPath) : String := p.parts.getLastD ""

/-- Longest common component run of two component lists. -/
def commonParts : List String → List String → List String
  | a :: as, b :: bs => if a = b then a :: commonParts as bs else []
  | _, _ => []

/-- `os.path.commonpath([p, q])`: raises `ValueError` when one path is
relative and the other absolute ("Can't mix absolute and relative paths");
otherwise the longest common sub-path. -/
def commonpath (p q : PyPath) : Except PyErr PyPath :=
  if p.absolute != q.absolute then .error .valueError
  else .ok ⟨p.absolute, commonParts p.parts q.parts⟩

/-- Join path components with the separator. -/
def joinParts : List String → String
  | [] => ""
  | [a] => a
  | a :: rest => a ++ "/" ++ joinParts rest

/-- Rendering of a path as the string a watchdog event carries. -/
def pathStr (p : PyPath) : String :=
  (if p.absolute then "/" else "") ++ joinParts p.parts

/-- Metadata of one file: the `os.stat` timestamps (stored directly as
instants, see `DateTime`) and the EXIF content that `PIL.Image.open` plus
`_getexif()` would yield — `none` when opening the file as an image raises,
otherwise the tag list as (tag name, raw value); a `_getexif()` returning
`None` is folded into the empty list exactly as `img._getexif() or {}` does. -/
structure FileMeta where
  st_mtime : DateTime
  st_ctime : DateTime
  image : Option (List (String × String))
deriving DecidableEq, Repr

/-- The file tree visible to the program: the files that exist, with their
metadata.  Directories are not tracked (`os.makedirs` is idempotent and no
claim depends on them). -/
abbrev FS := List (PyPath × FileMeta)

/-- `os.path.exists` restricted to the modelled files. -/
def exists_path (fs : FS) (p : PyPath) : Bool := fs.any (fun e => e.1 == p)

/-- Lookup of a path's metadata (what `os.stat` / `Image.open` consult). -/
def fs_lookup (fs : FS) (p : PyPath) : Option FileMeta :=
  match fs.find? (fun e => e.1 == p) with
  | some e => some e.2
  | none => none

/-- Success-path effect of `shutil.move(src, dst)` on the modelled tree (the
failure modes of `shutil.move` are analysed separately by
`shutil_move_model`). -/
def fs_move (fs : FS) (src dst : PyPath) : FS :=
  match fs_lookup fs src with
  | some meta => (fs.filter (fun e => e.1 != src)) ++ [(dst, meta)]
  | none => fs

/-- Bucket start ordinal: `origin.date() + timedelta(days=idx*days)`. -/
def bucket_start (origin days idx : Int) : Int := origin + idx * days

/-- Bucket inclusive end ordinal: `start + timedelta(days=days-1)`. -/
def bucket_end (origin days idx : Int) : Int := bucket_start origin days idx + (days - 1)

/-- Bucket index: `delta // days`, Python floor division. -/
def bucket_index (dtDate origin days : Int) : Int := Int.fdiv (dtDate - origin) days

/-- `get_date_range_folder(dt, origin, days)`, lines 84-92 of shixian.py:
`delta = (dt.date() - origin.date()).days`, `idx = delta // days`,
`start = origin.date() + timedelta(days=idx*days)`,
`end = start + timedelta(days=days-1)`, label
`start.strftime('%Y.%m.%d') + "-" + end.strftime('%Y.%m.%d')`. -/
def get_date_range_folder (dt origin : DateTime) (days : Int) : String :=
  let delta := dt.date - origin.date
  let idx := Int.fdiv delta days
  let start := origin.date + idx * days
  let dend := start + (days - 1)
  strftime_date start ++ "-" ++ strftime_date dend

/-- Modelled from the spec (§4.2 Bucket Mapper), for comparison against the
code: `delta = wholeDaysBetween(instant.date, origin.date)` (signed),
`index = floorDiv(delta, periodDays)`, `start = origin.date +
index*periodDays`, `end = start + periodDays - 1 day`, label
`"<start:YYYY.MM.DD>-<end:YYYY.MM.DD>"`. -/
def spec_bucketFor (instant origin : DateTime) (periodDays : Int) : String :=
  let delta := instant.date - origin.date
  let index := Int.fdiv delta periodDays
  let start := origin.date + index * periodDays
  let stop := start + periodDays - 1
  strftime_date start ++ "-" ++ strftime_date stop

/-- Helper of `os.path.splitext`: split a character list before its last dot;
`none` when no dot occurs. -/
def lastDotSplit : List Char → Option (List Char × List Char)
  | [] => none
  | c :: cs =>
    match lastDotSplit cs with
    | some (b, e) => some (c :: b, e)
    | none => if c = '.' then some ([], c :: cs) else none

/-- `os.path.splitext` on a bare filename: the extension starts at the last
dot, provided a non-dot character precedes it (a leading run of dots never
starts an extension, so `.bashrc` has no extension). -/
def splitextName (name : String) : String × String :=
  match lastDotSplit name.data with
  | some (b, e) => if b.any (fun c => c != '.') then (⟨b⟩, ⟨e⟩) else (name, "")
  | none => (name, "")

/-- The `i`-th collision candidate `f"{base}_{i}{ext}"` placed in `dir`. -/
def uniq_candidate (dir : PyPath) (base ext : String) (i : Nat) : PyPath :=
  joinName dir (base ++ "_" ++ Nat.repr i ++ ext)

/-- The `while os.path.exists(new_dst)` loop of `ensure_unique`.  `cur` is the
candidate under test, `i` the next suffix to try; the fuel only bounds the
loop and `fs.length + 2` is always enough (`ensure_unique_spec`). -/
def ensure_unique_go (fs : FS) (dir : PyPath) (base ext : String) :
    PyPath → Nat → Nat → PyPath
  | cur, _, 0 => cur
  | cur, i, fuel + 1 =>
    if exists_path fs cur then
      ensure_unique_go fs dir base ext (uniq_candidate dir base ext i) (i + 1) fuel
    else cur

/-- `ensure_unique(dst)`, lines 71-81: append `_1`, `_2`, ... before the
extension until the path is free. -/
def ensure_unique (fs : FS) (dst : PyPath) : PyPath :=
  let se := splitextName (basename dst)
  ensure_unique_go fs ⟨dst.absolute, dst.parts.dropLast⟩ se.1 se.2 dst 1 (fs.length + 2)

/-- Python `str.lower()` (ASCII case folding, as relevant for extensions). -/
def pyLower (s : String) : String := ⟨s.data.map Char.toLower⟩

/-- Python `str.endswith`. -/
def pyEndswith (s t : String) : Bool :=
  t.data.length ≤ s.data.length && s.data.drop (s.data.length - t.data.length) == t.data

/-- `f.lower().endswith(tuple(exts))`, the eligibility test of both producers:
a raw case-insensitive suffix match against each configured extension. -/
def matches_ext (s : String) (exts : List String) : Bool :=
  exts.any (fun e => pyEndswith (pyLower s) e)

/-- The tag names accepted by `get_exif_datetime` (line 48). -/
def EXIF_TAGS : List String := ["DateTime", "DateTimeOriginal", "DateTimeDigitized"]

/-- `datetime.strptime(val, "%Y:%m:%d %H:%M:%S")`: a fixed-shape parse with
full calendar validation (as `datetime`'s constructor applies); `none` models
the `ValueError` that `get_exif_datetime` catches. -/
def strptime_exif (s : String) : Option DateTime :=
  match s.data with
  | [y1, y2, y3, y4, c1, o1, o2, c2, d1, d2, c3, h1, h2, c4, i1, i2, c5, s1, s2] =>
    if y1.isDigit && y2.isDigit && y3.isDigit && y4.isDigit && o1.isDigit && o2.isDigit &&
        d1.isDigit && d2.isDigit && h1.isDigit && h2.isDigit && i1.isDigit && i2.isDigit &&
        s1.isDigit && s2.isDigit && c1 == ':' && c2 == ':' && c3 == ' ' && c4 == ':' &&
        c5 == ':' then
      let y := 1000 * (y1.toNat - 48) + 100 * (y2.toNat - 48) + 10 * (y3.toNat - 48) +
        (y4.toNat - 48)
      let mo := 10 * (o1.toNat - 48) + (o2.toNat - 48)
      let dy := 10 * (d1.toNat - 48) + (d2.toNat - 48)
      let hh := 10 * (h1.toNat - 48) + (h2.toNat - 48)
      let mi := 10 * (i1.toNat - 48) + (i2.toNat - 48)
      let ss := 10 * (s1.toNat - 48) + (s2.toNat - 48)
      if 1 ≤ y && y ≤ 9999 && 1 ≤ mo && mo ≤ 12 && 1 ≤ dy && dy ≤ monthLen y mo &&
          hh ≤ 23 && mi ≤ 59 && ss ≤ 59 then
        some ⟨toOrdinal y mo dy, hh * 3600 + mi * 60 + ss⟩
      else none
    else none
  | _ => none

/-- `get_exif_datetime(path)`, lines 37-52.  `entry` is the state of the path
on the modelled tree (`none` when the file does not exist).  Every failure —
capability missing, file unreadable as an image, no matching tag, malformed
tag value — yields `none`; the broad `except` catches everything else.  The
loop returns on the first matching tag, so a malformed value of that tag
aborts the whole attempt exactly as in the source. -/
def get_exif_datetime (exifAvailable : Bool) (entry : Option FileMeta) : Option DateTime :=
  if !exifAvailable then none
  else
    match entry with
    | none => none
    | some meta =>
      match meta.image with
      | none => none
      | some tags =>
        match tags.find? (fun kv => EXIF_TAGS.contains kv.1) with
        | none => none
        | some kv => strptime_exif kv.2

/-- `pick_timestamp(path, source)`, lines 55-68.  `entry` is the lookup of the
path; a missing entry makes `os.stat` raise (`OSError`), modelled as
`Except.error` — the only way this function fails. -/
def pick_timestamp (exifAvailable : Bool) (entry : Option FileMeta) (source : String) :
    Except PyErr DateTime :=
  match (if source == "exif" then get_exif_datetime exifAvailable entry else none) with
  | some dt => .ok dt
  | none =>
    match entry with
    | some meta => .ok (if source != "ctime" then meta.st_mtime else meta.st_ctime)
    | none => .error .oserror

/-- `sort_file(path, dst_root, source, origin, days)`, lines 95-106: resolve
the timestamp (this is where a vanished file raises), compute the bucket
folder, disambiguate the destination, move.  Returns the updated tree and the
performed move (source path, final destination). `os.makedirs(target,
exist_ok=True)` is idempotent directory creation, not tracked. -/
def sort_file (exifAvailable : Bool) (fs : FS) (path dst_root : PyPath) (source : String)
    (origin : DateTime) (days : Int) : Except PyErr (FS × (PyPath × PyPath)) :=
  match pick_timestamp exifAvailable (fs_lookup fs path) source with
  | .error e => .error e
  | .ok dt =>
    let folder_name := get_date_range_folder dt origin days
    let target := joinName dst_root folder_name
    let name := basename path
    let dst := ensure_unique fs (joinName target name)
    .ok (fs_move fs path dst, (path, dst))

/-- Result of a sweep: the final tree, the moves performed in order, and the
uncaught exception that aborted it, if any. -/
structure SweepResult where
  fs : FS
  moves : List (PyPath × PyPath)
  err : Option PyErr
deriving DecidableEq, Repr

/-- The `for root, _, files in os.walk` body of `process_existing`, one step
per enumerated (directory, filename) pair.  No `try` surrounds the body in
the source, so an exception from `commonpath` or `sort_file` aborts the
remaining enumeration. -/
def process_existing_go (exifAvailable : Bool) (dst_root : PyPath) (source : String)
    (origin : DateTime) (days : Int) (exts : List String) :
    List (PyPath × String) → FS → List (PyPath × PyPath) → SweepResult
  | [], fs, moves => ⟨fs, moves.reverse, none⟩
  | (root, f) :: rest, fs, moves =>
    if matches_ext f exts then
      let fp := joinName root f
      match commonpath fp dst_root with
      | .error e => ⟨fs, moves.reverse, some e⟩
      | .ok c =>
        if c == dst_root then
          process_existing_go exifAvailable dst_root source origin days exts rest fs moves
        else
          match sort_file exifAvailable fs fp dst_root source origin days with
          | .error e => ⟨fs, moves.reverse, some e⟩
          | .ok (fs2, mv) =>
            process_existing_go exifAvailable dst_root source origin days exts rest fs2
              (mv :: moves)
    else process_existing_go exifAvailable dst_root source origin days exts rest fs moves

/-- `process_existing(watch_dir, dst_root, ...)`, lines 109-122, over the
`os.walk` enumeration `walk` (pairs of directory and filename). -/
def process_existing (exifAvailable : Bool) (walk : List (PyPath × String)) (fs : FS)
    (dst_root : PyPath) (source : String) (origin : DateTime) (days : Int)
    (exts : List String) : SweepResult :=
  process_existing_go exifAvailable dst_root source origin days exts walk fs []

/-- `ScreenshotHandler.on_created(event)`, lines 133-139: ignore directories,
filter by `event.src_path.lower().endswith(e)` over the configured
extensions, settle (`time.sleep(0.2)`, no observable effect here) and run
`sort_file`.  No `try` surrounds the call: an exception propagates to the
caller (the watchdog dispatch thread). -/
def on_created (exifAvailable : Bool) (fs : FS) (isDirectory : Bool) (src_path : PyPath)
    (dst_root : PyPath) (source : String) (origin : DateTime) (days : Int)
    (exts : List String) : Except PyErr (FS × Option (PyPath × PyPath)) :=
  if isDirectory then .ok (fs, none)
  else if !matches_ext (pathStr src_path) exts then .ok (fs, none)
  else
    match sort_file exifAvailable fs src_path dst_root source origin days with
    | .error e => .error e
    | .ok (fs2, mv) => .ok (fs2, some mv)

/-- Lines 158-159 of `main`: the degraded-capability check, run once at
startup — the only diagnostic the program prints for a missing Pillow. -/
def main_warnings (source : String) (exifAvailable : Bool) : List String :=
  if source == "exif" && !exifAvailable then
    ["Warning: Pillow missing, fallback to mtime."]
  else []

/-- Where a fault strikes during `shutil.move`, if anywhere. -/
inductive MoveFault where
  | ok
  | duringCopy
  | duringDelete
deriving DecidableEq, Repr

/-- Observable outcome of one move: is the source still present, and does the
destination hold a complete file or a partial one. -/
structure MoveView where
  srcPresent : Bool
  dstFull : Bool
  dstPartial : Bool
deriving DecidableEq, Repr

/-- Documented semantics of `shutil.move(src, dst)`, the call `sort_file`
performs: on the same filesystem a single `os.rename`, which either fully
succeeds or changes nothing; across filesystems `copy2` followed by
`os.unlink(src)` — a fault during the copy leaves a partial destination file
with the source intact, a fault during the unlink leaves complete files at
both ends.  The second component reports success. -/
def shutil_move_model (sameFilesystem : Bool) (fault : MoveFault) : MoveView × Bool :=
  if sameFilesystem then
    match fault with
    | .ok => (⟨false, true, false⟩, true)
    | .duringCopy => (⟨true, false, false⟩, false)
    | .duringDelete => (⟨true, false, false⟩, false)
  else
    match fault with
    | .ok => (⟨false, true, false⟩, true)
    | .duringCopy => (⟨true, false, true⟩, false)
    | .duringDelete => (⟨true, true, false⟩, false)

/-- Value of a big-endian decimal digit string. -/
def digitsVal (l : List Char) : Nat := l.foldl (fun a c => 10 * a + (c.toNat - 48)) 0

/-- The sequence of paths the `ensure_unique` loop tests: first the original
candidate, then `f"{base}_{i}{ext}"`, `f"{base}_{i+1}{ext}"`, ... -/
def uniq_seq (dir : PyPath) (base ext : String) (cur : PyPath) (i : Nat) : Nat → PyPath
  | 0 => cur
  | t + 1 => uniq_candidate dir base ext (i + t)

/-- Does `p` lie under `root`: same absoluteness and `root`'s components are
an initial run of `p`'s. -/
def under_path (root p : PyPath) : Bool :=
  root.absolute == p.absolute && root.parts.isPrefixOf p.parts

/-- Origin date of the worked examples: `datetime(2025, 5, 1)`. -/
def scOrigin : DateTime := ⟨toOrdinal 2025 5 1, 0⟩

/-- Metadata of the example screenshots: modified 2025-05-13, no EXIF tags. -/
def scMeta : FileMeta := ⟨⟨toOrdinal 2025 5 13, 0⟩, ⟨toOrdinal 2025 5 13, 0⟩, some []⟩

/-- Example watch directory. -/
def scWatch : PyPath := ⟨true, ["watch"]⟩

/-- Example subdirectory of the watch directory. -/
def scWatchB : PyPath := ⟨true, ["watch", "b"]⟩

/-- Example destination root (a subdirectory of the watch root). -/
def scDst : PyPath := ⟨true, ["watch", "dst"]⟩

/-- Example tree: two files both named `shot.png`. -/
def scFS : FS := [(joinName scWatch "shot.png", scMeta), (joinName scWatchB "shot.png", scMeta)]

/-- The bucket holding 2025-05-13 for the example policy. -/
def scLabel : String := "2025.05.11-2025.05.20"

/-! ## Theorems -/

theorem daysBeforeYear_succ (y : Int) :
    daysBeforeYear (y + 1) = daysBeforeYear y + yearLen y := by
  have hy : y + 1 - 1 = y := by ring
  unfold daysBeforeYear yearLen
  rw [hy]
  rw [Int.fdiv_eq_ediv _ (by norm_num), Int.fdiv_eq_ediv _ (by norm_num),
    Int.fdiv_eq_ediv _ (by norm_num), Int.fdiv_eq_ediv _ (by norm_num),
    Int.fdiv_eq_ediv _ (by norm_num), Int.fdiv_eq_ediv _ (by norm_num)]
  split
  case isTrue h =>
    simp only [isLeap, Bool.and_eq_true, Bool.or_eq_true, beq_iff_eq, bne_iff_ne] at h
    omega
  case isFalse h =>
    simp only [isLeap, Bool.and_eq_true, Bool.or_eq_true, beq_iff_eq, bne_iff_ne] at h
    omega

theorem findY_eq_of_lt {y : Int} {doy fuel : Nat} (hd : doy < yearLen y) :
    findY (fuel + 1) y doy = (y, doy) := by
  simp [findY, hd]

theorem findY_eq_of_ge {y : Int} {doy fuel : Nat} (hd : ¬ doy < yearLen y) :
    findY (fuel + 1) y doy = findY fuel (y + 1) (doy - yearLen y) := by
  simp [findY, hd]

theorem findY_spec (fuel : Nat) :
    ∀ (y : Int) (doy : Nat),
      daysBeforeYear y + doy < daysBeforeYear (y + fuel) →
      daysBeforeYear (findY fuel y doy).1 + ((findY fuel y doy).2 : Int) =
          daysBeforeYear y + doy ∧
        (findY fuel y doy).2 < yearLen (findY fuel y doy).1 ∧
        y ≤ (findY fuel y doy).1 := by
  induction fuel with
  | zero =>
    intro y doy h
    simp only [Nat.cast_zero, add_zero] at h
    omega
  | succ fuel ih =>
    intro y doy h
    by_cases hd : doy < yearLen y
    · rw [findY_eq_of_lt hd]
      exact ⟨rfl, hd, le_refl y⟩
    · have hle : yearLen y ≤ doy := Nat.le_of_not_lt hd
      rw [findY_eq_of_ge hd]
      have hstep : daysBeforeYear (y + 1) + ((doy - yearLen y : Nat) : Int) =
          daysBeforeYear y + doy := by
        rw [daysBeforeYear_succ]
        push_cast [Nat.cast_sub hle]
        ring
      have hlt : daysBeforeYear (y + 1) + ((doy - yearLen y : Nat) : Int) <
          daysBeforeYear (y + 1 + fuel) := by
        rw [hstep]
        have harg : (y + 1 : Int) + fuel = y + (fuel + 1 : Nat) := by push_cast; ring
        rw [harg]
        exact h
      obtain ⟨h1, h2, h3⟩ := ih (y + 1) (doy - yearLen y) hlt
      exact ⟨by rw [h1, hstep], h2, by omega⟩

theorem monthLen_le (y : Int) (m : Nat) : monthLen y m ≤ 31 := by
  unfold monthLen
  split
  any_goals norm_num
  split <;> norm_num

theorem daysBeforeMonth_13 (y : Int) : daysBeforeMonth y 13 = yearLen y := by
  simp only [daysBeforeMonth, monthLen, yearLen]
  by_cases h : isLeap y <;> simp [h]

theorem findM_eq_of_lt {y : Int} {m doy fuel : Nat} (hd : doy < monthLen y m) :
    findM y (fuel + 1) m doy = (m, doy) := by
  simp [findM, hd]

theorem findM_eq_of_ge {y : Int} {m doy fuel : Nat} (hd : ¬ doy < monthLen y m) :
    findM y (fuel + 1) m doy = findM y fuel (m + 1) (doy - monthLen y m) := by
  simp [findM, hd]

theorem findM_spec (fuel : Nat) :
    ∀ (y : Int) (m doy : Nat),
      doy + daysBeforeMonth y m < daysBeforeMonth y (m + fuel) →
      daysBeforeMonth y (findM y fuel m doy).1 + (findM y fuel m doy).2 =
          daysBeforeMonth y m + doy ∧
        (findM y fuel m doy).2 < monthLen y (findM y fuel m doy).1 ∧
        m ≤ (findM y fuel m doy).1 ∧ (findM y fuel m doy).1 < m + fuel := by
  induction fuel with
  | zero =>
    intro y m doy h
    simp only [Nat.add_zero] at h
    omega
  | succ fuel ih =>
    intro y m doy h
    by_cases hd : doy < monthLen y m
    · rw [findM_eq_of_lt hd]
      exact ⟨rfl, hd, le_refl m, by omega⟩
    · have hle : monthLen y m ≤ doy := Nat.le_of_not_lt hd
      rw [findM_eq_of_ge hd]
      have hstep : daysBeforeMonth y (m + 1) + (doy - monthLen y m) =
          daysBeforeMonth y m + doy := by
        simp only [daysBeforeMonth]
        omega
      have hlt : (doy - monthLen y m) + daysBeforeMonth y (m + 1) <
          daysBeforeMonth y (m + 1 + fuel) := by
        have harg : m + 1 + fuel = m + (fuel + 1) := by omega
        rw [harg]
        omega
      obtain ⟨h1, h2, h3, h4⟩ := ih y (m + 1) (doy - monthLen y m) hlt
      have harg2 : m + 1 + fuel = m + (fuel + 1) := by omega
      exact ⟨by omega, h2, by omega, by omega⟩

theorem daysBeforeYear_era (e : Int) : daysBeforeYear (e * 400 + 1) = e * 146097 := by
  unfold daysBeforeYear
  have harg : e * 400 + 1 - 1 = 400 * e := by ring
  rw [harg]
  rw [Int.fdiv_eq_ediv _ (by norm_num), Int.fdiv_eq_ediv _ (by norm_num),
    Int.fdiv_eq_ediv _ (by norm_num)]
  omega

theorem daysBeforeMonth_one (y : Int) : daysBeforeMonth y 1 = 0 := by
  simp [daysBeforeMonth, monthLen]

theorem fromOrdinal_spec (n : Int) :
    toOrdinal (fromOrdinal n).1 (fromOrdinal n).2.1 (fromOrdinal n).2.2 = n ∧
      1 ≤ (fromOrdinal n).2.1 ∧ (fromOrdinal n).2.1 ≤ 12 ∧
      1 ≤ (fromOrdinal n).2.2 ∧
      (fromOrdinal n).2.2 ≤ monthLen (fromOrdinal n).1 (fromOrdinal n).2.1 := by
  obtain ⟨y, doy, hfy⟩ : ∃ y doy,
      findY 400 (Int.fdiv (n - 1) 146097 * 400 + 1)
        ((n - 1 - Int.fdiv (n - 1) 146097 * 146097).toNat) = (y, doy) := ⟨_, _, rfl⟩
  obtain ⟨m, dm, hfm⟩ : ∃ m dm, findM y 12 1 doy = (m, dm) := ⟨_, _, rfl⟩
  have hfo : fromOrdinal n = (y, m, dm + 1) := by
    simp only [fromOrdinal, hfy, hfm]
  have hed : Int.fdiv (n - 1) 146097 = (n - 1) / 146097 :=
    Int.fdiv_eq_ediv _ (by norm_num)
  have hdoe0 : 0 ≤ n - 1 - Int.fdiv (n - 1) 146097 * 146097 := by rw [hed]; omega
  have hdoe1 : n - 1 - Int.fdiv (n - 1) 146097 * 146097 < 146097 := by rw [hed]; omega
  have hdoec : ((n - 1 - Int.fdiv (n - 1) 146097 * 146097).toNat : Int) =
      n - 1 - Int.fdiv (n - 1) 146097 * 146097 := Int.toNat_of_nonneg hdoe0
  have hadqY : daysBeforeYear (Int.fdiv (n - 1) 146097 * 400 + 1) +
      ((n - 1 - Int.fdiv (n - 1) 146097 * 146097).toNat : Int) <
      daysBeforeYear (Int.fdiv (n - 1) 146097 * 400 + 1 + (400 : Nat)) := by
    have h401 : Int.fdiv (n - 1) 146097 * 400 + 1 + ((400 : Nat) : Int) =
        (Int.fdiv (n - 1) 146097 + 1) * 400 + 1 := by push_cast; ring
    rw [h401, daysBeforeYear_era, daysBeforeYear_era, hdoec]
    have hexp : (Int.fdiv (n - 1) 146097 + 1) * 146097 =
        Int.fdiv (n - 1) 146097 * 146097 + 146097 := by ring
    omega
  have hy := findY_spec 400 (Int.fdiv (n - 1) 146097 * 400 + 1)
    ((n - 1 - Int.fdiv (n - 1) 146097 * 146097).toNat) hadqY
  simp only [hfy, Prod.fst, Prod.snd] at hy
  obtain ⟨hy1, hy2, _⟩ := hy
  have hadqM : doy + daysBeforeMonth y 1 < daysBeforeMonth y (1 + 12) := by
    have h13 : daysBeforeMonth y (1 + 12) = yearLen y := daysBeforeMonth_13 y
    rw [h13, daysBeforeMonth_one]
    omega
  have hm := findM_spec 12 y 1 doy hadqM
  simp only [hfm, Prod.fst, Prod.snd] at hm
  obtain ⟨hm1, hm2, hm3, hm4⟩ := hm
  rw [daysBeforeMonth_one] at hm1
  simp only [hfo, Prod.fst, Prod.snd]
  refine ⟨?_, by omega, by omega, by omega, by omega⟩
  show daysBeforeYear y + daysBeforeMonth y m + (dm + 1 : Nat) = n
  rw [daysBeforeYear_era, hdoec] at hy1
  rw [hed] at hy1
  have hcast : ((dm + 1 : Nat) : Int) = (dm : Int) + 1 := by push_cast; ring
  rw [hcast]
  have hmm : daysBeforeMonth y m + dm = doy := by omega
  have hmmi : (daysBeforeMonth y m : Int) + dm = doy := by
    push_cast [← hmm]
    ring
  omega

theorem daysBeforeMonth_le (y : Int) (m : Nat) (h : m ≤ 12) :
    daysBeforeMonth y m ≤ 335 := by
  by_cases h2 : isLeap y <;> interval_cases m <;>
    simp [daysBeforeMonth, monthLen, h2]

theorem daysBeforeYear_le_of_nonpos (y : Int) (h : y ≤ 0) :
    daysBeforeYear y ≤ -366 := by
  unfold daysBeforeYear
  rw [Int.fdiv_eq_ediv _ (by norm_num), Int.fdiv_eq_ediv _ (by norm_num),
    Int.fdiv_eq_ediv _ (by norm_num)]
  omega

theorem daysBeforeYear_ge_of_big (y : Int) (h : 10000 ≤ y) :
    3652059 ≤ daysBeforeYear y := by
  unfold daysBeforeYear
  rw [Int.fdiv_eq_ediv _ (by norm_num), Int.fdiv_eq_ediv _ (by norm_num),
    Int.fdiv_eq_ediv _ (by norm_num)]
  omega

theorem fromOrdinal_year_range (n : Int) (h1 : minOrdinal ≤ n) (h2 : n ≤ maxOrdinal) :
    1 ≤ (fromOrdinal n).1 ∧ (fromOrdinal n).1 ≤ 9999 := by
  obtain ⟨hrt, hm1, hm2, hd1, hd2⟩ := fromOrdinal_spec n
  unfold minOrdinal at h1
  unfold maxOrdinal at h2
  unfold toOrdinal at hrt
  have hdm : daysBeforeMonth (fromOrdinal n).1 (fromOrdinal n).2.1 ≤ 335 :=
    daysBeforeMonth_le _ _ hm2
  have hdd : (fromOrdinal n).2.2 ≤ 31 :=
    le_trans hd2 (monthLen_le (fromOrdinal n).1 (fromOrdinal n).2.1)
  constructor
  · by_contra hy
    push_neg at hy
    have hylt : (fromOrdinal n).1 ≤ 0 := by omega
    have := daysBeforeYear_le_of_nonpos (fromOrdinal n).1 hylt
    omega
  · by_contra hy
    push_neg at hy
    have hyge : 10000 ≤ (fromOrdinal n).1 := by omega
    have := daysBeforeYear_ge_of_big (fromOrdinal n).1 hyge
    omega

theorem digitChar_inj : ∀ a < 10, ∀ b < 10, Nat.digitChar a = Nat.digitChar b → a = b := by
  decide

theorem pad2_inj (a b : Nat) (ha : a ≤ 99) (hb : b ≤ 99) (h : pad2 a = pad2 b) : a = b := by
  have hdata := congrArg String.data h
  simp only [pad2, List.cons.injEq, and_true] at hdata
  obtain ⟨e1, e2⟩ := hdata
  have d1 : a / 10 = b / 10 := digitChar_inj _ (by omega) _ (by omega) e1
  have d2 : a % 10 = b % 10 := digitChar_inj _ (by omega) _ (by omega) e2
  omega

theorem pad4_inj (a b : Nat) (ha : a ≤ 9999) (hb : b ≤ 9999) (h : pad4 a = pad4 b) : a = b := by
  have hdata := congrArg String.data h
  simp only [pad4, List.cons.injEq, and_true] at hdata
  obtain ⟨e1, e2, e3, e4⟩ := hdata
  have d1 : a / 1000 = b / 1000 := digitChar_inj _ (by omega) _ (by omega) e1
  have d2 : a / 100 % 10 = b / 100 % 10 := digitChar_inj _ (by omega) _ (by omega) e2
  have d3 : a / 10 % 10 = b / 10 % 10 := digitChar_inj _ (by omega) _ (by omega) e3
  have d4 : a % 10 = b % 10 := digitChar_inj _ (by omega) _ (by omega) e4
  omega

theorem mk_data (l : List Char) : (String.mk l).data = l := rfl

theorem dot_data : ("." : String).data = ['.'] := rfl

theorem dash_data : ("-" : String).data = ['-'] := rfl

theorem strftime_date_inj (n1 n2 : Int)
    (h1a : minOrdinal ≤ n1) (h1b : n1 ≤ maxOrdinal)
    (h2a : minOrdinal ≤ n2) (h2b : n2 ≤ maxOrdinal)
    (heq : strftime_date n1 = strftime_date n2) : n1 = n2 := by
  obtain ⟨hrt1, hm1a, hm1b, hd1a, hd1b⟩ := fromOrdinal_spec n1
  obtain ⟨hrt2, hm2a, hm2b, hd2a, hd2b⟩ := fromOrdinal_spec n2
  obtain ⟨hy1a, hy1b⟩ := fromOrdinal_year_range n1 h1a h1b
  obtain ⟨hy2a, hy2b⟩ := fromOrdinal_year_range n2 h2a h2b
  have hdata := congrArg String.data heq
  simp only [strftime_date, String.data_append, mk_data, dot_data, pad4, pad2,
    List.cons_append, List.nil_append, List.cons.injEq, and_true] at hdata
  obtain ⟨e1, e2, e3, e4, _, e5, e6, _, e7, e8⟩ := hdata
  have hy1n : (fromOrdinal n1).1.toNat ≤ 9999 := by omega
  have hy2n : (fromOrdinal n2).1.toNat ≤ 9999 := by omega
  have hmd1 : (fromOrdinal n1).2.2 ≤ 31 :=
    le_trans hd1b (monthLen_le (fromOrdinal n1).1 (fromOrdinal n1).2.1)
  have hmd2 : (fromOrdinal n2).2.2 ≤ 31 :=
    le_trans hd2b (monthLen_le (fromOrdinal n2).1 (fromOrdinal n2).2.1)
  have q1 := digitChar_inj _ (by omega) _ (by omega) e1
  have q2 := digitChar_inj _ (by omega) _ (by omega) e2
  have q3 := digitChar_inj _ (by omega) _ (by omega) e3
  have q4 := digitChar_inj _ (by omega) _ (by omega) e4
  have q5 := digitChar_inj _ (by omega) _ (by omega) e5
  have q6 := digitChar_inj _ (by omega) _ (by omega) e6
  have q7 := digitChar_inj _ (by omega) _ (by omega) e7
  have q8 := digitChar_inj _ (by omega) _ (by omega) e8
  have hy : (fromOrdinal n1).1 = (fromOrdinal n2).1 := by omega
  have hm : (fromOrdinal n1).2.1 = (fromOrdinal n2).2.1 := by omega
  have hd : (fromOrdinal n1).2.2 = (fromOrdinal n2).2.2 := by omega
  rw [← hrt1, ← hrt2, hy, hm, hd]

theorem strftime_date_length (n : Int) : (strftime_date n).data.length = 10 := by
  simp [strftime_date, pad4, pad2]

theorem toDigitsCore_acc (fuel : Nat) : ∀ (n : Nat) (l : List Char),
    Nat.toDigitsCore 10 fuel n l = Nat.toDigitsCore 10 fuel n [] ++ l := by
  induction fuel with
  | zero => intro n l; simp [Nat.toDigitsCore]
  | succ fuel ih =>
    intro n l
    simp only [Nat.toDigitsCore]
    by_cases h : n / 10 = 0
    · simp [h]
    · simp only [h, if_false]
      rw [ih (n / 10) (Nat.digitChar (n % 10) :: l), ih (n / 10) [Nat.digitChar (n % 10)]]
      simp

theorem digitsVal_snoc (l : List Char) (c : Char) :
    digitsVal (l ++ [c]) = 10 * digitsVal l + (c.toNat - 48) := by
  simp [digitsVal, List.foldl_append]

theorem digitChar_toNat : ∀ k < 10, (Nat.digitChar k).toNat = 48 + k := by
  decide

theorem lt_ten_pow (n : Nat) : n < 10 ^ (n + 1) := by
  induction n with
  | zero => norm_num
  | succ n ih =>
    have ha : 0 < 10 ^ (n + 1) := pow_pos (by norm_num) _
    have h2 : 10 ^ (n + 2) = 10 ^ (n + 1) * 10 := by rw [pow_succ]
    omega

theorem digitsVal_toDigitsCore (fuel : Nat) : ∀ n, n < 10 ^ fuel →
    digitsVal (Nat.toDigitsCore 10 fuel n []) = n := by
  induction fuel with
  | zero =>
    intro n h
    simp only [pow_zero] at h
    have h0 : n = 0 := by omega
    simp [h0, Nat.toDigitsCore, digitsVal]
  | succ fuel ih =>
    intro n h
    simp only [Nat.toDigitsCore]
    by_cases h0 : n / 10 = 0
    · have hn : n < 10 := by omega
      simp only [h0, if_true]
      show digitsVal [Nat.digitChar (n % 10)] = n
      have hd := digitChar_toNat (n % 10) (by omega)
      simp [digitsVal, hd]
      omega
    · simp only [h0, if_false]
      rw [toDigitsCore_acc, digitsVal_snoc]
      have hdiv : n / 10 < 10 ^ fuel := by
        have hps : 10 ^ (fuel + 1) = 10 ^ fuel * 10 := by rw [pow_succ]
        rw [hps] at h
        exact Nat.div_lt_of_lt_mul (by omega)
      rw [ih (n / 10) hdiv]
      have hd := digitChar_toNat (n % 10) (by omega)
      omega

theorem Nat_repr_inj {a b : Nat} (h : Nat.repr a = Nat.repr b) : a = b := by
  have hdata : Nat.toDigits 10 a = Nat.toDigits 10 b := congrArg String.data h
  have ha : digitsVal (Nat.toDigitsCore 10 (a + 1) a []) = a :=
    digitsVal_toDigitsCore (a + 1) a (lt_ten_pow a)
  have hb : digitsVal (Nat.toDigitsCore 10 (b + 1) b []) = b :=
    digitsVal_toDigitsCore (b + 1) b (lt_ten_pow b)
  unfold Nat.toDigits at hdata
  rw [← ha, ← hb, hdata]

theorem exists_path_mem {fs : FS} {p : PyPath} (h : exists_path fs p = true) :
    p ∈ fs.map Prod.fst := by
  simp only [exists_path, List.any_eq_true, beq_iff_eq] at h
  obtain ⟨e, he, hp⟩ := h
  exact hp ▸ List.mem_map_of_mem Prod.fst he

theorem uniq_candidate_inj (dir : PyPath) (base ext : String) {i j : Nat}
    (h : uniq_candidate dir base ext i = uniq_candidate dir base ext j) : i = j := by
  simp only [uniq_candidate, joinName, PyPath.mk.injEq, true_and] at h
  have h2 : base ++ "_" ++ Nat.repr i ++ ext = base ++ "_" ++ Nat.repr j ++ ext := by
    have h1 := List.append_cancel_left h
    simpa using h1
  have h3 : (Nat.repr i).data = (Nat.repr j).data := by
    have hd := congrArg String.data h2
    simp only [String.data_append] at hd
    exact List.append_cancel_left (List.append_cancel_right hd)
  exact Nat_repr_inj (String.ext h3)

theorem uniq_seq_shift (dir : PyPath) (base ext : String) (cur : PyPath) (i t : Nat) :
    uniq_seq dir base ext cur i (t + 1) =
      uniq_seq dir base ext (uniq_candidate dir base ext i) (i + 1) t := by
  cases t with
  | zero => simp [uniq_seq]
  | succ s =>
    show uniq_candidate dir base ext (i + (s + 1)) = uniq_candidate dir base ext (i + 1 + s)
    congr 1
    omega

theorem ensure_unique_go_spec (fs : FS) (dir : PyPath) (base ext : String) :
    ∀ (fuel : Nat) (cur : PyPath) (i : Nat),
      (∃ t, t < fuel ∧ exists_path fs (uniq_seq dir base ext cur i t) = false) →
      exists_path fs (ensure_unique_go fs dir base ext cur i fuel) = false ∧
        ((ensure_unique_go fs dir base ext cur i fuel = cur ∧ exists_path fs cur = false) ∨
          (exists_path fs cur = true ∧
            ∃ j, i ≤ j ∧
              ensure_unique_go fs dir base ext cur i fuel = uniq_candidate dir base ext j ∧
              ∀ k, i ≤ k → k < j → exists_path fs (uniq_candidate dir base ext k) = true)) := by
  intro fuel
  induction fuel with
  | zero =>
    intro cur i h
    obtain ⟨t, ht, _⟩ := h
    omega
  | succ fuel ih =>
    intro cur i h
    by_cases hc : exists_path fs cur = true
    · have hgo : ensure_unique_go fs dir base ext cur i (fuel + 1) =
          ensure_unique_go fs dir base ext (uniq_candidate dir base ext i) (i + 1) fuel := by
        simp [ensure_unique_go, hc]
      obtain ⟨t, htf, htfree⟩ := h
      have hex : ∃ t, t < fuel ∧
          exists_path fs
            (uniq_seq dir base ext (uniq_candidate dir base ext i) (i + 1) t) = false := by
        cases t with
        | zero =>
          rw [show uniq_seq dir base ext cur i 0 = cur from rfl] at htfree
          rw [htfree] at hc
          exact absurd hc (by simp)
        | succ s =>
          rw [uniq_seq_shift] at htfree
          exact ⟨s, by omega, htfree⟩
      obtain ⟨hfree, hcase⟩ := ih (uniq_candidate dir base ext i) (i + 1) hex
      rw [hgo]
      refine ⟨hfree, Or.inr ⟨hc, ?_⟩⟩
      rcases hcase with ⟨heq, hfree2⟩ | ⟨hcand, j, hij, heqj, hall⟩
      · exact ⟨i, le_refl i, heq, fun k hk1 hk2 => absurd (lt_of_le_of_lt hk1 hk2)
          (lt_irrefl i)⟩
      · refine ⟨j, by omega, heqj, fun k hk1 hk2 => ?_⟩
        by_cases hki : k = i
        · rw [hki]; exact hcand
        · exact hall k (by omega) hk2
    · have hcf : exists_path fs cur = false := by
        simpa using hc
      have hgo : ensure_unique_go fs dir base ext cur i (fuel + 1) = cur := by
        simp [ensure_unique_go, hcf]
      rw [hgo]
      exact ⟨hcf, Or.inl ⟨rfl, hcf⟩⟩

theorem ensure_unique_adequate (fs : FS) (dir : PyPath) (base ext : String) (cur : PyPath) :
    ∃ t, t < fs.length + 2 ∧ exists_path fs (uniq_seq dir base ext cur 1 t) = false := by
  by_contra hall
  push_neg at hall
  have hocc : ∀ k, k < fs.length + 1 →
      exists_path fs (uniq_candidate dir base ext (k + 1)) = true := by
    intro k hk
    have h1 := hall (k + 1) (by omega)
    have h2 : uniq_seq dir base ext cur 1 (k + 1) = uniq_candidate dir base ext (k + 1) := by
      show uniq_candidate dir base ext (1 + k) = uniq_candidate dir base ext (k + 1)
      congr 1
      omega
    rw [h2] at h1
    simpa using h1
  have hMcard : (fs.map Prod.fst).toFinset.card ≤ fs.length :=
    le_trans (List.toFinset_card_le _) (by simp)
  have hsub : (Finset.range (fs.length + 1)).image
      (fun k => uniq_candidate dir base ext (k + 1)) ⊆ (fs.map Prod.fst).toFinset := by
    rw [Finset.image_subset_iff]
    intro k hk
    rw [Finset.mem_range] at hk
    exact List.mem_toFinset.mpr (exists_path_mem (hocc k hk))
  have hinj : Function.Injective (fun k => uniq_candidate dir base ext (k + 1)) := by
    intro a b hab
    have hij := uniq_candidate_inj dir base ext hab
    omega
  have hcard := Finset.card_le_card hsub
  rw [Finset.card_image_of_injective _ hinj, Finset.card_range] at hcard
  omega

theorem ensure_unique_spec (fs : FS) (dst : PyPath) :
    exists_path fs (ensure_unique fs dst) = false ∧
      ((ensure_unique fs dst = dst ∧ exists_path fs dst = false) ∨
        (exists_path fs dst = true ∧
          ∃ j, 1 ≤ j ∧
            ensure_unique fs dst =
              uniq_candidate ⟨dst.absolute, dst.parts.dropLast⟩
                (splitextName (basename dst)).1 (splitextName (basename dst)).2 j ∧
            ∀ k, 1 ≤ k → k < j →
              exists_path fs
                (uniq_candidate ⟨dst.absolute, dst.parts.dropLast⟩
                  (splitextName (basename dst)).1 (splitextName (basename dst)).2 k) = true)) := by
  have h := ensure_unique_go_spec fs ⟨dst.absolute, dst.parts.dropLast⟩
    (splitextName (basename dst)).1 (splitextName (basename dst)).2 (fs.length + 2) dst 1
    (ensure_unique_adequate fs ⟨dst.absolute, dst.parts.dropLast⟩
      (splitextName (basename dst)).1 (splitextName (basename dst)).2 dst)
  exact h

theorem strftime_date_strlength (n : Int) : (strftime_date n).length = 10 :=
  strftime_date_length n

theorem get_date_range_folder_eq (dt origin : DateTime) (days : Int) :
    get_date_range_folder dt origin days =
      strftime_date (bucket_start origin.date days (bucket_index dt.date origin.date days)) ++
        "-" ++
        strftime_date (bucket_end origin.date days (bucket_index dt.date origin.date days)) :=
  rfl

/-- C1: for every instant `t`, origin and positive period length `days`, the
bucket mapper computes the signed whole-day delta, the floor-division index,
`start = origin + index*days`, `end = start + (days-1)` and the label
`<start>-<end>` in `YYYY.MM.DD` format — it coincides with the spec's
algorithm (`spec_bucketFor`) — and with origin 2025-05-01 and period 10 an
instant dated 2025-05-13 yields "2025.05.11-2025.05.20" while an instant
dated 2025-04-25 yields "2025.04.21-2025.04.30". -/
theorem C1_bucket_mapper (t origin : DateTime) (days : Int) (hd : 0 < days) :
    get_date_range_folder t origin days = spec_bucketFor t origin days ∧
      get_date_range_folder t origin days =
        strftime_date (bucket_start origin.date days (bucket_index t.date origin.date days)) ++
          "-" ++
          strftime_date (bucket_end origin.date days (bucket_index t.date origin.date days)) ∧
      get_date_range_folder ⟨toOrdinal 2025 5 13, 0⟩ ⟨toOrdinal 2025 5 1, 0⟩ 10 =
        "2025.05.11-2025.05.20" ∧
      get_date_range_folder ⟨toOrdinal 2025 4 25, 0⟩ ⟨toOrdinal 2025 5 1, 0⟩ 10 =
        "2025.04.21-2025.04.30" := by
  refine ⟨?_, get_date_range_folder_eq t origin days, by rfl, by rfl⟩
  unfold get_date_range_folder spec_bucketFor
  ring_nf

theorem C1_bucket_mapper_witness :
    (0 : Int) < 10 ∧
      get_date_range_folder ⟨toOrdinal 2025 5 13, 0⟩ ⟨toOrdinal 2025 5 1, 0⟩ 10 =
        spec_bucketFor ⟨toOrdinal 2025 5 13, 0⟩ ⟨toOrdinal 2025 5 1, 0⟩ 10 :=
  ⟨by norm_num,
    (C1_bucket_mapper ⟨toOrdinal 2025 5 13, 0⟩ ⟨toOrdinal 2025 5 1, 0⟩ 10 (by norm_num)).1⟩

/-- C7: buckets tile the date axis — the end of bucket `i` plus one day is the
start of bucket `i+1` — and, within Python's representable date range, two
instants map to the same bucket label if and only if they have the same
bucket index, i.e. their dates fall in the same `days`-long window measured
from the origin. -/
theorem C7_buckets_tile (origin : DateTime) (days : Int) (hd : 0 < days) (i : Int)
    (t1 t2 : DateTime)
    (h1a : minOrdinal ≤ bucket_start origin.date days (bucket_index t1.date origin.date days))
    (h1b : bucket_end origin.date days (bucket_index t1.date origin.date days) ≤ maxOrdinal)
    (h2a : minOrdinal ≤ bucket_start origin.date days (bucket_index t2.date origin.date days))
    (h2b : bucket_end origin.date days (bucket_index t2.date origin.date days) ≤ maxOrdinal) :
    bucket_end origin.date days i + 1 = bucket_start origin.date days (i + 1) ∧
      (get_date_range_folder t1 origin days = get_date_range_folder t2 origin days ↔
        bucket_index t1.date origin.date days = bucket_index t2.date origin.date days) := by
  constructor
  · unfold bucket_end bucket_start
    ring
  · constructor
    · intro heq
      rw [get_date_range_folder_eq, get_date_range_folder_eq] at heq
      have hdata := congrArg String.data heq
      simp only [String.data_append, dash_data] at hdata
      have hlen : ((strftime_date (bucket_start origin.date days
          (bucket_index t1.date origin.date days))).data ++ ['-']).length =
          ((strftime_date (bucket_start origin.date days
            (bucket_index t2.date origin.date days))).data ++ ['-']).length := by
        simp [strftime_date_length, strftime_date_strlength]
      have hsplit := List.append_inj hdata hlen
      have hstart : strftime_date (bucket_start origin.date days
          (bucket_index t1.date origin.date days)) =
          strftime_date (bucket_start origin.date days
            (bucket_index t2.date origin.date days)) :=
        String.ext (List.append_cancel_right hsplit.1)
      have hse1 : bucket_start origin.date days (bucket_index t1.date origin.date days) ≤
          bucket_end origin.date days (bucket_index t1.date origin.date days) := by
        unfold bucket_end
        omega
      have hse2 : bucket_start origin.date days (bucket_index t2.date origin.date days) ≤
          bucket_end origin.date days (bucket_index t2.date origin.date days) := by
        unfold bucket_end
        omega
      have heqs := strftime_date_inj _ _ h1a (by omega) h2a (by omega) hstart
      unfold bucket_start at heqs
      have hmul : bucket_index t1.date origin.date days * days =
          bucket_index t2.date origin.date days * days := by omega
      exact mul_right_cancel₀ (ne_of_gt hd) hmul
    · intro heq
      rw [get_date_range_folder_eq, get_date_range_folder_eq, heq]

theorem C7_buckets_tile_witness :
    (0 : Int) < 10 ∧
      (get_date_range_folder ⟨toOrdinal 2025 5 13, 0⟩ ⟨toOrdinal 2025 5 1, 0⟩ 10 =
          get_date_range_folder ⟨toOrdinal 2025 5 15, 0⟩ ⟨toOrdinal 2025 5 1, 0⟩ 10 ↔
        bucket_index (toOrdinal 2025 5 13) (toOrdinal 2025 5 1) 10 =
          bucket_index (toOrdinal 2025 5 15) (toOrdinal 2025 5 1) 10) :=
  ⟨by norm_num,
    (C7_buckets_tile ⟨toOrdinal 2025 5 1, 0⟩ 10 (by norm_num) 0
      ⟨toOrdinal 2025 5 13, 0⟩ ⟨toOrdinal 2025 5 15, 0⟩
      (by decide) (by decide) (by decide) (by decide)).2⟩

theorem isPrefixOf_append : ∀ (l1 l2 : List String),
    l1.isPrefixOf l2 = true ↔ ∃ r, l1 ++ r = l2
  | [], l2 => by
    simp
  | a :: as, [] => by
    simp
  | a :: as, b :: bs => by
    rw [List.isPrefixOf_cons₂]
    simp only [Bool.and_eq_true, beq_iff_eq]
    constructor
    · rintro ⟨rfl, h⟩
      obtain ⟨r, hr⟩ := (isPrefixOf_append as bs).mp h
      exact ⟨r, by simp [hr]⟩
    · rintro ⟨r, hr⟩
      simp only [List.cons_append, List.cons.injEq] at hr
      exact ⟨hr.1, (isPrefixOf_append as bs).mpr ⟨r, hr.2⟩⟩

theorem commonParts_self_of_append (q : List String) :
    ∀ rest, commonParts (q ++ rest) q = q := by
  induction q with
  | nil =>
    intro rest
    cases rest <;> rfl
  | cons a q ih =>
    intro rest
    simp [commonParts, ih]

theorem commonpath_of_under {dst_root p : PyPath} (h : under_path dst_root p = true) :
    commonpath p dst_root = .ok dst_root := by
  unfold under_path at h
  simp only [Bool.and_eq_true, beq_iff_eq] at h
  obtain ⟨habs, hpre⟩ := h
  obtain ⟨rest, hrest⟩ := (isPrefixOf_append _ _).mp hpre
  unfold commonpath
  rw [show (p.absolute != dst_root.absolute) = false by simp [habs]]
  show Except.ok ⟨p.absolute, commonParts p.parts dst_root.parts⟩ = Except.ok dst_root
  rw [← hrest, commonParts_self_of_append, ← habs]

theorem sort_file_src {exifAvailable : Bool} {fs : FS} {path dst_root : PyPath}
    {source : String} {origin : DateTime} {days : Int} {fs2 : FS} {mv : PyPath × PyPath}
    (h : sort_file exifAvailable fs path dst_root source origin days = .ok (fs2, mv)) :
    mv.1 = path := by
  unfold sort_file at h
  split at h
  · exact absurd h (by simp)
  · injection h with h2
    have h3 := congrArg Prod.snd h2
    simp only at h3
    rw [← h3]

theorem process_go_under (exifAvailable : Bool) (dst_root : PyPath) (source : String)
    (origin : DateTime) (days : Int) (exts : List String) :
    ∀ (walk : List (PyPath × String)) (fs : FS) (acc : List (PyPath × PyPath)),
      (∀ mv ∈ acc, under_path dst_root mv.1 = false) →
      ∀ mv ∈ (process_existing_go exifAvailable dst_root source origin days exts
        walk fs acc).moves,
        under_path dst_root mv.1 = false := by
  intro walk
  induction walk with
  | nil =>
    intro fs acc hacc mv hmv
    simp only [process_existing_go] at hmv
    exact hacc mv (List.mem_reverse.mp hmv)
  | cons hd rest ih =>
    intro fs acc hacc mv hmv
    obtain ⟨root, f⟩ := hd
    simp only [process_existing_go] at hmv
    split at hmv
    · split at hmv
      · exact hacc mv (List.mem_reverse.mp hmv)
      · rename_i c hcp
        split at hmv
        · exact ih fs acc hacc mv hmv
        · rename_i hcne
          split at hmv
          · exact hacc mv (List.mem_reverse.mp hmv)
          · rename_i fs2 mvp hsf
            refine ih fs2 (mvp :: acc) ?_ mv hmv
            intro mv2 hmv2
            rcases List.mem_cons.mp hmv2 with hh | hh
            · have hsrc : mvp.1 = joinName root f := sort_file_src hsf
              rw [hh, hsrc]
              by_contra hu
              have hu2 : under_path dst_root (joinName root f) = true := by
                simpa using hu
              have := commonpath_of_under hu2
              rw [this] at hcp
              injection hcp with hc
              rw [hc] at hcne
              simp at hcne
            · exact hacc mv2 hh
    · exact ih fs acc hacc mv hmv

/-- C4: the sweep never moves a file that lies under the destination root —
in every sweep outcome the list of performed moves whose source is under
`dst_root` is empty (count zero) — and re-running the sweep over files
already placed in their bucket under the destination subtree moves none of
them and leaves the tree unchanged (classification is idempotent under
re-sweeping). -/
theorem C4_sweep_skips_destination (exifAvailable : Bool) (walk : List (PyPath × String))
    (fs : FS) (dst_root : PyPath) (source : String) (origin : DateTime) (days : Int)
    (exts : List String) :
    (process_existing exifAvailable walk fs dst_root source origin days exts).moves.filter
        (fun mv => under_path dst_root mv.1) = [] ∧
      process_existing true
          [(joinName scDst scLabel, "shot.png"), (joinName scDst scLabel, "shot_1.png")]
          [(joinName (joinName scDst scLabel) "shot.png", scMeta),
            (joinName (joinName scDst scLabel) "shot_1.png", scMeta)]
          scDst "mtime" scOrigin 10 ["png"] =
        ⟨[(joinName (joinName scDst scLabel) "shot.png", scMeta),
          (joinName (joinName scDst scLabel) "shot_1.png", scMeta)], [], none⟩ := by
  constructor
  · rw [List.filter_eq_nil_iff]
    intro mv hmv
    have hres := process_go_under exifAvailable dst_root source origin days exts walk fs []
      (by intro mv2 h2; exact absurd h2 (List.not_mem_nil mv2)) mv hmv
    simp [hres]
  · rfl

/-- C2 as amended: a per-file classification error is not caught anywhere in
the classify path: `on_created` returns the error to its caller (the watchdog
dispatch thread), and the sweep stops at the first failing file — whatever
files remain in the enumeration are never examined and no further move
happens. -/
theorem C2_amended (exifAvailable : Bool) (fs : FS) (dst_root : PyPath) (source : String)
    (origin : DateTime) (days : Int) (exts : List String) :
    (∀ (src : PyPath) (e : PyErr),
        matches_ext (pathStr src) exts = true →
        sort_file exifAvailable fs src dst_root source origin days = .error e →
        on_created exifAvailable fs false src dst_root source origin days exts = .error e) ∧
      (∀ (root : PyPath) (f : String) (rest : List (PyPath × String)) (c : PyPath) (e : PyErr),
        matches_ext f exts = true →
        commonpath (joinName root f) dst_root = .ok c →
        (c == dst_root) = false →
        sort_file exifAvailable fs (joinName root f) dst_root source origin days = .error e →
        process_existing exifAvailable ((root, f) :: rest) fs dst_root source origin days
            exts = ⟨fs, [], some e⟩) := by
  constructor
  · intro src e hm hsf
    unfold on_created
    simp [hm, hsf]
  · intro root f rest c e hm hcp hcne hsf
    unfold process_existing process_existing_go
    simp [hm, hcp, hcne, hsf]

theorem C2_amended_witness :
    process_existing true [(scWatch, "b.png")] [(joinName scWatch "a.png", scMeta)] scDst
        "mtime" scOrigin 10 ["png"] =
      ⟨[(joinName scWatch "a.png", scMeta)], [], some PyErr.oserror⟩ :=
  (C2_amended true [(joinName scWatch "a.png", scMeta)] scDst "mtime" scOrigin 10
    ["png"]).2 scWatch "b.png" [] ⟨true, ["watch"]⟩ PyErr.oserror rfl rfl rfl rfl

/-- C2 as stated is false: one vanished file aborts the sweep.  With three
eligible files a.png, b.png, c.png where b.png has vanished before its
`os.stat`, the sweep raises `OSError` out of `process_existing` (the claim
says the error never propagates up) and only one move is performed — the
healthy c.png after the failure is never classified (the claim says the
sweep over the remaining files is not aborted). -/
theorem C2_counterexample :
    (process_existing true [(scWatch, "a.png"), (scWatch, "b.png"), (scWatch, "c.png")]
          [(joinName scWatch "a.png", scMeta), (joinName scWatch "c.png", scMeta)]
          scDst "mtime" scOrigin 10 ["png"]).err = some PyErr.oserror ∧
      (process_existing true [(scWatch, "a.png"), (scWatch, "b.png"), (scWatch, "c.png")]
          [(joinName scWatch "a.png", scMeta), (joinName scWatch "c.png", scMeta)]
          scDst "mtime" scOrigin 10 ["png"]).moves =
        [(joinName scWatch "a.png", joinName (joinName scDst scLabel) "a.png")] := by
  constructor <;> rfl

/-- C10: the destination-exclusion check is not total: with a relative watch
root and an absolute destination root, `os.path.commonpath` raises
`ValueError` on the first eligible file, before it is classified, and the
uncaught error aborts the whole sweep — no file is moved and the error
escapes — whatever files remain in the enumeration. -/
theorem C10_commonpath_not_total :
    commonpath (joinName ⟨false, ["wd"]⟩ "a.png") ⟨true, ["dst"]⟩ =
        .error PyErr.valueError ∧
      ∀ rest, process_existing true ((⟨false, ["wd"]⟩, "a.png") :: rest)
          [(joinName ⟨false, ["wd"]⟩ "a.png", scMeta)] ⟨true, ["dst"]⟩ "mtime" scOrigin 10
          ["png"] =
        ⟨[(joinName ⟨false, ["wd"]⟩ "a.png", scMeta)], [], some PyErr.valueError⟩ := by
  exact ⟨rfl, fun rest => rfl⟩

theorem pyEndswith_iff (s t : String) :
    pyEndswith s t = true ↔ ∃ r, r ++ t.data = s.data := by
  unfold pyEndswith
  simp only [Bool.and_eq_true, decide_eq_true_eq, beq_iff_eq]
  constructor
  · rintro ⟨hle, hdrop⟩
    refine ⟨s.data.take (s.data.length - t.data.length), ?_⟩
    conv_rhs => rw [← List.take_append_drop (s.data.length - t.data.length) s.data]
    rw [hdrop]
  · rintro ⟨r, hr⟩
    rw [← hr]
    have hl : (r ++ t.data).length - t.data.length = r.length := by
      simp [List.length_append]
    refine ⟨by simp, ?_⟩
    rw [hl]
    exact List.drop_left r t.data

/-- C5: for every readable file, when the embedded-capture source is selected
and the file carries no readable capture tag — `get_exif_datetime` returns
`none`, covering the missing capability, an unreadable image, a missing
field, and a malformed tag value — `pick_timestamp` does not raise and the
resolved instant equals the modification-time resolution of the same file,
namely `st_mtime`. -/
theorem C5_exif_fallback (exifAvailable : Bool) (meta : FileMeta)
    (hno : get_exif_datetime exifAvailable (some meta) = none) :
    pick_timestamp exifAvailable (some meta) "exif" =
        pick_timestamp exifAvailable (some meta) "mtime" ∧
      pick_timestamp exifAvailable (some meta) "exif" = .ok meta.st_mtime := by
  unfold pick_timestamp
  simp [hno]

theorem C5_exif_fallback_witness :
    get_exif_datetime true (some ⟨⟨739384, 0⟩, ⟨739300, 0⟩, some [("Software", "scrot")]⟩) =
        none ∧
      pick_timestamp true
          (some ⟨⟨739384, 0⟩, ⟨739300, 0⟩, some [("Software", "scrot")]⟩) "exif" =
        pick_timestamp true
          (some ⟨⟨739384, 0⟩, ⟨739300, 0⟩, some [("Software", "scrot")]⟩) "mtime" :=
  ⟨rfl, (C5_exif_fallback true ⟨⟨739384, 0⟩, ⟨739300, 0⟩, some [("Software", "scrot")]⟩
    rfl).1⟩

/-- C8: with the capability missing and the embedded-capture source selected,
the startup check emits exactly one warning (and none in any other
configuration); the whole run then behaves as the modification source: the
capture-tag read consults no file state at all (`none` for every file,
readable or not, whatever tags it carries) and every file's resolved instant
equals its modification-time resolution. -/
theorem C8_degraded_mode :
    (main_warnings "exif" false).length = 1 ∧
      (∀ (source : String) (exifAvailable : Bool),
        (main_warnings source exifAvailable).length =
          if source == "exif" && !exifAvailable then 1 else 0) ∧
      (∀ entry : Option FileMeta, get_exif_datetime false entry = none) ∧
      (∀ entry : Option FileMeta,
        pick_timestamp false entry "exif" = pick_timestamp false entry "mtime") := by
  refine ⟨rfl, ?_, fun entry => rfl, fun entry => rfl⟩
  intro source avail
  unfold main_warnings
  split <;> rfl

/-- C9: eligibility in both the sweep (`f.lower().endswith(tuple(exts))`) and
the watch handler (`any(event.src_path.lower().endswith(e) for e in exts)`)
is the raw case-insensitive suffix test `matches_ext`: it holds iff some
configured extension string is a plain suffix of the lowercased name, with no
dot separator required — so "xpng" is eligible for extension "png" (and the
sweep moves it), as is "SHOT.PNG"; a name merely containing "png" elsewhere
is not. -/
theorem C9_raw_suffix_match :
    (∀ (s : String) (exts : List String),
      matches_ext s exts = true ↔ ∃ e ∈ exts, ∃ r, r ++ e.data = (pyLower s).data) ∧
      matches_ext "xpng" ["png"] = true ∧
      matches_ext "SHOT.PNG" ["png"] = true ∧
      matches_ext "shot.png.bak" ["png"] = false ∧
      (process_existing true [(scWatch, "xpng")] [(joinName scWatch "xpng", scMeta)] scDst
        "mtime" scOrigin 10 ["png"]).moves.length = 1 := by
  refine ⟨?_, rfl, rfl, rfl, rfl⟩
  intro s exts
  unfold matches_ext
  rw [List.any_eq_true]
  constructor
  · rintro ⟨e, he, hp⟩
    exact ⟨e, he, (pyEndswith_iff _ _).mp hp⟩
  · rintro ⟨e, he, hr⟩
    exact ⟨e, he, (pyEndswith_iff _ _).mpr hr⟩

/-- C6: `ensure_unique` always returns a free path; it returns the original
candidate exactly when that is free, and otherwise `f"{base}_{j}{ext}"` — the
numeric suffix inserted before the extension — for the least suffix `j ≥ 1`
whose path is free, every smaller suffix being occupied; in particular,
sweeping two files both named `shot.png` into the same bucket stores them as
`shot.png` and `shot_1.png`, both present afterwards, neither overwritten. -/
theorem C6_collision_suffix :
    (∀ (fs : FS) (dst : PyPath),
      exists_path fs (ensure_unique fs dst) = false ∧
        ((ensure_unique fs dst = dst ∧ exists_path fs dst = false) ∨
          (exists_path fs dst = true ∧
            ∃ j, 1 ≤ j ∧
              ensure_unique fs dst =
                uniq_candidate ⟨dst.absolute, dst.parts.dropLast⟩
                  (splitextName (basename dst)).1 (splitextName (basename dst)).2 j ∧
              ∀ k, 1 ≤ k → k < j →
                exists_path fs
                  (uniq_candidate ⟨dst.absolute, dst.parts.dropLast⟩
                    (splitextName (basename dst)).1 (splitextName (basename dst)).2 k) =
                  true))) ∧
      process_existing true [(scWatch, "shot.png"), (scWatchB, "shot.png")] scFS scDst
          "mtime" scOrigin 10 ["png"] =
        ⟨[(joinName (joinName scDst scLabel) "shot.png", scMeta),
            (joinName (joinName scDst scLabel) "shot_1.png", scMeta)],
          [(joinName scWatch "shot.png", joinName (joinName scDst scLabel) "shot.png"),
            (joinName scWatchB "shot.png", joinName (joinName scDst scLabel) "shot_1.png")],
          none⟩ :=
  ⟨ensure_unique_spec, rfl⟩

/-- C3 as amended: for the `shutil.move` the relocator performs, a move on a
single filesystem is atomic — it either fully succeeds or changes nothing;
every successful move leaves the source gone and the destination complete;
every failed move leaves the source file present (the file is never vanished
from both ends); but a cross-filesystem failure may leave a partial copy at
the destination (fault during copy) or complete copies at both ends (fault
during the final delete). -/
theorem C3_amended (sameFilesystem : Bool) (fault : MoveFault) :
    ((shutil_move_model sameFilesystem fault).2 = true →
      (shutil_move_model sameFilesystem fault).1 = ⟨false, true, false⟩) ∧
      (sameFilesystem = true →
        (shutil_move_model sameFilesystem fault).1 = ⟨false, true, false⟩ ∨
          (shutil_move_model sameFilesystem fault).1 = ⟨true, false, false⟩) ∧
      ((shutil_move_model sameFilesystem fault).2 = false →
        (shutil_move_model sameFilesystem fault).1.srcPresent = true) ∧
      ((shutil_move_model sameFilesystem fault).1.srcPresent = true ∨
        (shutil_move_model sameFilesystem fault).1.dstFull = true) := by
  cases sameFilesystem <;> cases fault <;> simp [shutil_move_model]

theorem C3_amended_witness :
    (shutil_move_model true MoveFault.ok).1 = ⟨false, true, false⟩ :=
  (C3_amended true MoveFault.ok).1 rfl

/-- C3 as stated is false for the `shutil.move` call the relocator performs:
across filesystems (where the move is copy-then-delete) a fault during the
copy leaves a partial file at the destination while the source remains — so
a failure does land something partial at the destination — and a fault
during the final delete leaves the complete file at both ends — a
duplication in both places. -/
theorem C3_counterexample :
    (shutil_move_model false MoveFault.duringCopy).1.dstPartial = true ∧
      (shutil_move_model false MoveFault.duringCopy).2 = false ∧
      (shutil_move_model false MoveFault.duringDelete).1.srcPresent = true ∧
      (shutil_move_model false MoveFault.duringDelete).1.dstFull = true :=
  ⟨rfl, rfl, rfl, rfl⟩
